import Mathlib

/-!
Verification of the `LocalSymbolSearch` widget (jsr frontend).

The widget exists in two variants:
* a flat variant (`LocalSymbolSearch.tsx`) whose reconciliation loop visits
  every element with class `namespaceItem` in the parsed document; it also
  keeps a list of result records with an arrow-key selection index;
* a sectioned variant (`part_000`) whose reconciliation loop visits every
  element with class `section` and, inside each, its `namespaceItem`
  descendants, hiding the whole section when all of its items are hidden.

Both variants share the same custom tokenizer for the `name` property:
`raw.split(/(?=[A-Z])/).map((s) => s.toLowerCase())`.
-/

namespace LocalSymbolSearch

/-! ## Tokenizer

`tokenize(raw, lang, prop)` for `prop === "name"` evaluates the JavaScript
expression `raw.split(/(?=[A-Z])/).map((s) => s.toLowerCase())`.

JavaScript `String.prototype.split` with the zero-width lookahead
`(?=[A-Z])` cuts the string immediately before every ASCII capital letter,
except that a zero-width match at position 0 is skipped (so no empty leading
piece is produced), and `"".split(re)` yields `[""]` when the regex does not
match the empty string.  `[A-Z]` is the ASCII capital range, which is exactly
`Char.isUpper`; `toLowerCase` on those pieces is per-character `Char.toLower`.
-/

/-- Accumulator-based splitter: `acc` holds the (reversed) current piece;
a capital letter starts a new piece unless the current piece is empty
(which only happens at position 0, where JavaScript split skips the
zero-width match). -/
def splitCapAux (acc : List Char) : List Char → List (List Char)
  | [] => [acc.reverse]
  | c :: cs =>
    if c.isUpper && !acc.isEmpty then
      acc.reverse :: splitCapAux [c] cs
    else
      splitCapAux (c :: acc) cs

/-- `raw.split(/(?=[A-Z])/)` as the list of character-list pieces. -/
def splitBeforeCapitals (raw : String) : List (List Char) :=
  match raw.data with
  | [] => [[]]
  | c :: cs => splitCapAux [c] cs

/-- The custom tokenizer branch for the `name` property:
`raw.split(/(?=[A-Z])/).map((s) => s.toLowerCase())`. -/
def tokenize (raw : String) : List String :=
  (splitBeforeCapitals raw).map (fun cs => String.mk (cs.map Char.toLower))

/-- Modelled from the spec words of §4.2 (the refinement target, not the
code): split `raw` at every position immediately preceding an uppercase
letter, lowercase each resulting piece, and drop empty pieces.  The split
here cuts before every capital, including at position 0. -/
def splitCapSpecAux (acc : List Char) : List Char → List (List Char)
  | [] => [acc.reverse]
  | c :: cs =>
    if c.isUpper then
      acc.reverse :: splitCapSpecAux [c] cs
    else
      splitCapSpecAux (c :: acc) cs

/-- Modelled from the spec words of §4.2: the tokenization the spec
describes, with empty pieces dropped. -/
def tokenizeSpec (raw : String) : List String :=
  ((splitCapSpecAux [] raw.data).map (fun cs => String.mk (cs.map Char.toLower))).filter
    (fun s => s != "")

lemma splitCapAux_eq_spec (l : List Char) :
    ∀ acc : List Char, acc ≠ [] → splitCapAux acc l = splitCapSpecAux acc l := by
  induction l with
  | nil => intro acc _; rfl
  | cons c cs ih =>
    intro acc hacc
    by_cases hc : c.isUpper
    · have hne : acc.isEmpty = false := by
        cases acc with
        | nil => exact absurd rfl hacc
        | cons a as => rfl
      simp only [splitCapAux, splitCapSpecAux, hc, hne, Bool.not_false, Bool.and_true,
        if_true]
      rw [ih [c] (by simp)]
    · simp only [splitCapAux, splitCapSpecAux, hc, Bool.false_and, if_false]
      exact ih (c :: acc) (by simp)

lemma splitCapSpecAux_pieces_ne_nil (l : List Char) :
    ∀ acc : List Char, acc ≠ [] → ∀ p ∈ splitCapSpecAux acc l, p ≠ [] := by
  induction l with
  | nil =>
    intro acc hacc p hp
    simp only [splitCapSpecAux, List.mem_singleton] at hp
    subst hp
    simpa using hacc
  | cons c cs ih =>
    intro acc hacc p hp
    by_cases hc : c.isUpper
    · simp only [splitCapSpecAux, hc, if_true, List.mem_cons] at hp
      rcases hp with hp | hp
      · subst hp; simpa using hacc
      · exact ih [c] (by simp) p hp
    · simp only [splitCapSpecAux, hc, if_false] at hp
      exact ih (c :: acc) (by simp) p hp

lemma string_mk_map_ne_empty {p : List Char} (hp : p ≠ []) :
    (String.mk (p.map Char.toLower) != "") = true := by
  cases p with
  | nil => exact absurd rfl hp
  | cons a as =>
    simp only [bne_iff_ne, ne_eq]
    intro heq
    have hd : a.toLower :: as.map Char.toLower = ([] : List Char) :=
      congrArg String.data heq
    exact List.cons_ne_nil _ _ hd

/-- For a nonempty string, the code tokenizer agrees with the
spec-described tokenizer. -/
lemma tokenize_eq_spec_of_ne_empty (raw : String) (h : raw ≠ "") :
    tokenize raw = tokenizeSpec raw := by
  obtain ⟨d⟩ := raw
  cases d with
  | nil => exact absurd rfl h
  | cons c cs =>
    have hpieces : ∀ p ∈ splitCapSpecAux [c] cs, p ≠ [] :=
      splitCapSpecAux_pieces_ne_nil cs [c] (by simp)
    have hfilter :
        ((splitCapSpecAux [c] cs).map (fun p => String.mk (p.map Char.toLower))).filter
            (fun s => s != "") =
          (splitCapSpecAux [c] cs).map (fun p => String.mk (p.map Char.toLower)) := by
      apply List.filter_eq_self.mpr
      intro a ha
      rcases List.mem_map.mp ha with ⟨p, hpmem, hpa⟩
      subst hpa
      exact string_mk_map_ne_empty (hpieces p hpmem)
    have hcode : tokenize (String.mk (c :: cs)) =
        (splitCapAux [c] cs).map (fun p => String.mk (p.map Char.toLower)) := rfl
    rw [hcode, splitCapAux_eq_spec cs [c] (by simp)]
    by_cases hc : c.isUpper
    · have hspec : splitCapSpecAux [] (c :: cs) = [] :: splitCapSpecAux [c] cs := by
        simp [splitCapSpecAux, hc]
      show _ = tokenizeSpec (String.mk (c :: cs))
      unfold tokenizeSpec
      rw [show (String.mk (c :: cs)).data = c :: cs from rfl, hspec, List.map_cons,
        List.filter_cons]
      have hhead : ((String.mk (([] : List Char).map Char.toLower)) != "") = false := by
        decide
      rw [hhead, if_neg (by simp)]
      exact hfilter.symm
    · have hspec : splitCapSpecAux [] (c :: cs) = splitCapSpecAux [c] cs := by
        simp [splitCapSpecAux, hc]
      show _ = tokenizeSpec (String.mk (c :: cs))
      unfold tokenizeSpec
      rw [show (String.mk (c :: cs)).data = c :: cs from rfl, hspec]
      exact hfilter.symm

/-! ## DOM model and result reconciliation

A namespace item is an element with class `namespaceItem`, carrying a
`data-name` attribute and an inline `display` style property
(`style.removeProperty("display")` clears it, `style.setProperty("display",
"none")` sets it to `"none"`).  An element is hidden exactly when its inline
display property is `"none"`. -/

structure NamespaceItem where
  name : String
  display : Option String
  deriving DecidableEq, Repr

/-- An element is hidden when its inline display property is `"none"`. -/
def NamespaceItem.hiddenB (it : NamespaceItem) : Bool := it.display == some "none"

/-- Visible is the negation of hidden. -/
def NamespaceItem.visibleB (it : NamespaceItem) : Bool := !it.hiddenB

/-- Body of the reconciliation loop for one namespace item: if its
`data-name` is among the hit names, clear the display property, otherwise
set it to `"none"`. -/
def reconcileItem (matched : List String) (it : NamespaceItem) : NamespaceItem :=
  if matched.contains it.name then { it with display := none }
  else { it with display := some "none" }

/-- Flat-variant reconciliation (`LocalSymbolSearch.tsx`, `onInput`): the
loop over `doc.getElementsByClassName("namespaceItem")`. -/
def reconcile (matched : List String) (doc : List NamespaceItem) : List NamespaceItem :=
  doc.map (reconcileItem matched)

/-- An element with class `section`: its `namespaceItem` descendants plus
its own inline display property. -/
structure Sect where
  display : Option String
  items : List NamespaceItem
  deriving DecidableEq, Repr

/-- A section is hidden when its inline display property is `"none"`. -/
def Sect.hiddenB (s : Sect) : Bool := s.display == some "none"

/-- Sectioned-variant loop body (`part_000`, `onInput`): reconcile each
`namespaceItem` inside the section, counting the hidden ones, and hide the
section itself exactly when `hiddenItems == items.length`. -/
def reconcileSect (matched : List String) (s : Sect) : Sect :=
  if (s.items.filter (fun it => !matched.contains it.name)).length = s.items.length then
    { display := some "none", items := s.items.map (reconcileItem matched) }
  else
    { display := none, items := s.items.map (reconcileItem matched) }

/-- A top-level node of the parsed document: either an element with class
`section` (with its namespace items), or a namespace item that is not
inside any section. -/
inductive DocNode where
  | sect (s : Sect)
  | loose (item : NamespaceItem)
  deriving DecidableEq, Repr

/-- Sectioned-variant reconciliation (`part_000`, `onInput`): the loop over
`doc.getElementsByClassName("section")` — namespace items outside every
section are not visited. -/
def reconcileSectioned (matched : List String) (doc : List DocNode) : List DocNode :=
  doc.map fun n =>
    match n with
    | .sect s => .sect (reconcileSect matched s)
    | .loose it => .loose it

lemma reconcileItem_name (matched : List String) (it : NamespaceItem) :
    (reconcileItem matched it).name = it.name := by
  unfold reconcileItem
  by_cases h : matched.contains it.name = true
  · rw [if_pos h]
  · rw [if_neg h]

lemma reconcileItem_hiddenB (matched : List String) (it : NamespaceItem) :
    (reconcileItem matched it).hiddenB = !matched.contains it.name := by
  unfold reconcileItem
  by_cases h : matched.contains it.name = true
  · rw [if_pos h, h]; rfl
  · rw [if_neg h]
    have hfalse : matched.contains it.name = false := by
      cases hb : matched.contains it.name
      · rfl
      · exact absurd hb h
    rw [hfalse]; rfl

lemma reconcileItem_visibleB (matched : List String) (it : NamespaceItem) :
    (reconcileItem matched it).visibleB = matched.contains it.name := by
  rw [NamespaceItem.visibleB, reconcileItem_hiddenB, Bool.not_not]

lemma reconcileItem_idem (matched : List String) (it : NamespaceItem) :
    reconcileItem matched (reconcileItem matched it) = reconcileItem matched it := by
  by_cases h : it.name ∈ matched
  · simp [reconcileItem, h]
  · simp [reconcileItem, h]

lemma hiddenCount_map_reconcile (matched : List String) (items : List NamespaceItem) :
    ((items.map (reconcileItem matched)).filter
        (fun it => !matched.contains it.name)).length =
      (items.filter (fun it => !matched.contains it.name)).length := by
  induction items with
  | nil => rfl
  | cons a l ih =>
    simp only [List.map_cons, List.filter_cons, reconcileItem_name]
    cases hb : (!matched.contains a.name)
    · simpa using ih
    · simpa using ih

lemma reconcileSect_items (matched : List String) (s : Sect) :
    (reconcileSect matched s).items = s.items.map (reconcileItem matched) := by
  unfold reconcileSect
  by_cases h : (s.items.filter (fun it => !matched.contains it.name)).length =
      s.items.length
  · rw [if_pos h]
  · rw [if_neg h]

lemma reconcileSect_def (matched : List String) (s : Sect) :
    reconcileSect matched s =
      { display := if (s.items.filter (fun it => !matched.contains it.name)).length =
            s.items.length then some "none" else none,
        items := s.items.map (reconcileItem matched) } := by
  unfold reconcileSect
  by_cases h : (s.items.filter (fun it => !matched.contains it.name)).length =
      s.items.length
  · rw [if_pos h, if_pos h]
  · rw [if_neg h, if_neg h]

lemma reconcileSect_idem (matched : List String) (s : Sect) :
    reconcileSect matched (reconcileSect matched s) = reconcileSect matched s := by
  simp only [reconcileSect_def, List.map_map, List.length_map, hiddenCount_map_reconcile]
  congr 1
  apply List.map_congr_left
  intro a _
  simp only [Function.comp_apply]
  exact reconcileItem_idem matched a

lemma filter_length_eq_iff_all {α : Type} (p : α → Bool) (l : List α) :
    (l.filter p).length = l.length ↔ ∀ a ∈ l, p a = true := by
  constructor
  · intro h
    have heq : l.filter p = l := (List.filter_sublist l).eq_of_length h
    intro a ha
    exact List.of_mem_filter (heq ▸ ha)
  · intro h
    rw [List.filter_eq_self.mpr h]

lemma reconcileSect_hidden_iff (matched : List String) (s : Sect) :
    (reconcileSect matched s).hiddenB =
      (reconcileSect matched s).items.all (fun it => it.hiddenB) := by
  have hall : (reconcileSect matched s).items.all (fun it => it.hiddenB) =
      s.items.all (fun it => !matched.contains it.name) := by
    rw [reconcileSect_items]
    induction s.items with
    | nil => rfl
    | cons a l ih =>
      simp only [List.map_cons, List.all_cons, reconcileItem_hiddenB, ih]
  rw [hall]
  by_cases h : (s.items.filter (fun it => !matched.contains it.name)).length =
      s.items.length
  · have hTrue : s.items.all (fun it => !matched.contains it.name) = true :=
      List.all_eq_true.mpr ((filter_length_eq_iff_all _ _).mp h)
    rw [hTrue]
    unfold reconcileSect
    rw [if_pos h]
    rfl
  · have hFalse : s.items.all (fun it => !matched.contains it.name) = false := by
      cases hb : s.items.all (fun it => !matched.contains it.name)
      · rfl
      · exact absurd ((filter_length_eq_iff_all _ _).mpr (List.all_eq_true.mp hb)) h
    rw [hFalse]
    unfold reconcileSect
    rw [if_neg h]
    rfl

/-! ## UI state: results list, selection index, keyboard handling

The flat variant keeps `results : Signal<SearchRecord[]>` and
`selectionIdx : Signal<number>` (initialized to `-1`).  `onInput` with a
nonempty value runs the search, sets `selectionIdx` to `-1` and publishes
the hits; with an empty value it only clears `results`.  `onKeyUp` handles
ArrowDown (`min(results.length - 1, idx + 1)`), ArrowUp (`max(0, idx - 1)`)
and Enter (navigation, no signal mutation). -/

/-- The `kind` entries of a `SearchRecord`. -/
inductive SymbolKind where
  | classKind
  | enumKind
  | functionKind
  | interfaceKind
  | namespaceKind
  | typeAliasKind
  | variableKind
  deriving DecidableEq, Repr

/-- Source location of a `SearchRecord`. -/
structure Location where
  filename : String
  line : Nat
  col : Nat
  deriving DecidableEq, Repr

/-- One record of the search payload (`SearchRecord` in the tsx file). -/
structure SearchRecord where
  name : String
  kind : List SymbolKind
  file : String
  location : Location
  deriving DecidableEq, Repr

/-- The signals `selectionIdx` and `results` of the flat variant. -/
structure UIState where
  selectionIdx : Int
  results : List SearchRecord
  deriving DecidableEq, Repr

/-- `useSignal(-1)` and `useSignal<SearchRecord[]>([])`. -/
def initialUIState : UIState := { selectionIdx := -1, results := [] }

/-- The user events the two handlers react to.  An `input` event carries the
new input value and the hit records the search returned for it. -/
inductive UIEvent where
  | input (query : String) (hits : List SearchRecord)
  | arrowDown
  | arrowUp
  | enter
  deriving DecidableEq, Repr

/-- Effect of one event on the two signals, from `onInput` and `onKeyUp`:
an empty input value only clears `results` (the selection is left as is);
a nonempty value resets the selection to `-1` and publishes the hits;
ArrowDown sets `min(results.length - 1, idx + 1)`; ArrowUp sets
`max(0, idx - 1)`; Enter mutates neither signal. -/
def step (s : UIState) : UIEvent → UIState
  | .input q hits =>
    if q = "" then { s with results := [] }
    else { selectionIdx := -1, results := hits }
  | .arrowDown =>
    { s with selectionIdx := min ((s.results.length : Int) - 1) (s.selectionIdx + 1) }
  | .arrowUp =>
    { s with selectionIdx := max 0 (s.selectionIdx - 1) }
  | .enter => s

/-- A whole interaction: fold `step` over a list of events. -/
def runEvents (s : UIState) (evs : List UIEvent) : UIState :=
  evs.foldl step s

/-- The invariant claimed in the spec:
`selectionIndex ∈ [-1, resultRecords.length - 1]`. -/
def selectionInvariant (s : UIState) : Prop :=
  -1 ≤ s.selectionIdx ∧ s.selectionIdx ≤ (s.results.length : Int) - 1

instance (s : UIState) : Decidable (selectionInvariant s) := by
  unfold selectionInvariant
  infer_instance

lemma step_selectionIdx_lb (s : UIState) (e : UIEvent) (h : -1 ≤ s.selectionIdx) :
    -1 ≤ (step s e).selectionIdx := by
  cases e with
  | input q hits =>
    by_cases hq : q = ""
    · simpa [step, hq] using h
    · simp [step, hq]
  | arrowDown =>
    simp only [step]
    apply le_min
    · have : (0 : Int) ≤ (s.results.length : Int) := Int.natCast_nonneg _
      omega
    · omega
  | arrowUp =>
    simp only [step]
    have : (0 : Int) ≤ max 0 (s.selectionIdx - 1) := le_max_left 0 _
    omega
  | enter => exact h

lemma runEvents_selectionIdx_lb (evs : List UIEvent) :
    ∀ s : UIState, -1 ≤ s.selectionIdx → -1 ≤ (runEvents s evs).selectionIdx := by
  induction evs with
  | nil => intro s h; exact h
  | cons e rest ih =>
    intro s h
    exact ih (step s e) (step_selectionIdx_lb s e h)

/-! ## Enter navigation

On Enter, when `selectionIdx > -1` and `results[selectionIdx]` is defined,
the handler calls `preventDefault` and assigns
`location.href = "/@scope/pkg" + (version ? "@" + version : "") + "/doc" +
(file === "." ? "" : file) + "/~/" + name`. -/

/-- The URL template of the Enter branch of `onKeyUp`. -/
def navigationUrl (scope pkg version : String) (item : SearchRecord) : String :=
  "/@" ++ scope ++ "/" ++ pkg ++
    (if version = "" then "" else "@" ++ version) ++
    "/doc" ++ (if item.file = "." then "" else item.file) ++
    "/~/" ++ item.name

/-- The observable effect of the Enter branch: `some url` when the handler
prevents the default action and navigates, `none` when it does nothing
(selection `-1`, or the selected index is out of bounds). -/
def enterNavigation (scope pkg version : String) (s : UIState) : Option String :=
  if -1 < s.selectionIdx then
    match s.results.get? s.selectionIdx.toNat with
    | some item => some (navigationUrl scope pkg version item)
    | none => none
  else none

/-! ## Mount-time initialization and readiness

`db` is a `Signal` holding `undefined` until the index is published.  The
JSX renders `disabled={!db}` — the negation of the Signal OBJECT, not of
its `value`; a JavaScript object reference is always truthy. -/

/-- A preact signal: a mutable cell holding a value. -/
structure Signal (α : Type) where
  value : α
  deriving DecidableEq, Repr

/-- JavaScript truthiness of an object reference: always true. -/
def jsObjectTruthy {α : Type} (_obj : Signal α) : Bool := true

/-- The `disabled` attribute of the search input, `disabled={!db}`:
the negation of the always-truthy Signal object. -/
def inputDisabled {α : Type} (db : Signal (Option α)) : Bool :=
  !(jsObjectTruthy db)

/-- The index is queryable once `db.value` has been assigned the built
Orama database (it starts out `undefined`). -/
def searchIndexQueryable {α : Type} (db : Signal (Option α)) : Bool :=
  db.value.isSome

/-- JavaScript truthiness of the optional `content` prop: `undefined` and
`""` are falsy; the fetch is issued exactly when `!props.content`. -/
def contentTruthy : Option String → Bool
  | none => false
  | some c => c != ""

/-- The `{ ok: bool, data?: T }` response envelope of the api helper. -/
inductive ApiResponse (α : Type) where
  | ok (data : α)
  | err
  deriving DecidableEq, Repr

/-- The component state touched by the mount effect: the published index
(`db.value`), the parsed document (`parsedSearchContent.value`), whether
`insertMultiple` ran, and whether `console.error` was called. -/
structure InitState where
  db : Option (List String)
  parsedSearchContent : Option (List DocNode)
  inserted : Bool
  loggedError : Bool
  deriving DecidableEq, Repr

/-- State before the mount effect resolves. -/
def initialInitState : InitState :=
  { db := none, parsedSearchContent := none, inserted := false, loggedError := false }

/-- The loop over `getElementsByClassName("namespaceItem")` collecting
`dataset.name` for insertion into the index. -/
def extractNames (doc : List DocNode) : List String :=
  doc.foldr
    (fun n acc =>
      match n with
      | .sect s => s.items.map (fun it => it.name) ++ acc
      | .loose it => it.name :: acc)
    []

/-- Success path of the mount effect: parse the content, publish the
snapshot, extract the names, insert them, publish the db. -/
def publishContent (parse : String → List DocNode) (c : String) : InitState :=
  { db := some (extractNames (parse c)), parsedSearchContent := some (parse c),
    inserted := true, loggedError := false }

/-- The mount effect, given the DOMParser collaborator `parse`, the
`content` prop and the fetch outcome (consulted only when the prop is
falsy): on `ok: false` the error is logged and the effect returns before
any state is assigned. -/
def runInit (parse : String → List DocNode) (content : Option String)
    (fetched : ApiResponse String) : InitState :=
  if contentTruthy content then
    publishContent parse (content.getD "")
  else
    match fetched with
    | ApiResponse.ok d => publishContent parse d
    | ApiResponse.err => { initialInitState with loggedError := true }

/-! ## Concrete sample data used by witnesses and counterexamples -/

/-- A sample search record with the given name. -/
def sampleRecord (n : String) : SearchRecord :=
  { name := n, kind := [SymbolKind.functionKind], file := ".",
    location := { filename := "mod.ts", line := 1, col := 0 } }

/-- Three sample result records. -/
def threeRecords : List SearchRecord :=
  [sampleRecord "Foo", sampleRecord "Bar", sampleRecord "Baz"]

/-- A sample selected record with a non-dot file. -/
def witnessRecord : SearchRecord :=
  { name := "serve", kind := [SymbolKind.functionKind], file := "/server.ts",
    location := { filename := "server.ts", line := 10, col := 2 } }

/-- A sample namespace item living outside every section. -/
def looseItem : NamespaceItem := { name := "Quux", display := none }

/-! ## Claim theorems -/

/-- Claim C1 (code behavior at the failing input): the JSX attribute
`disabled={!db}` negates the Signal object rather than its value, so the
input is never disabled — in particular not at mount, when `db.value` is
still `undefined` and the Search Index is not yet queryable.  This refutes
the spec sentence that the input stays disabled until both the index build
and the content acquisition resolve. -/
theorem input_never_disabled :
    (∀ db : Signal (Option (List String)), inputDisabled db = false) ∧
    searchIndexQueryable (Signal.mk (none : Option (List String))) = false :=
  ⟨fun _ => rfl, rfl⟩

/-- Claim C2 counterexample: the code tokenizer does not drop empty
pieces — on the empty string it returns `[""]`, while the spec-described
tokenizer (split before capitals, lowercase, drop empty pieces) returns
`[]`. -/
theorem tokenize_empty_counterexample :
    tokenize "" = [""] ∧ tokenizeSpec "" = [] ∧ tokenize "" ≠ tokenizeSpec "" := by
  refine ⟨rfl, rfl, ?_⟩
  decide

/-- Claim C2 (amended): for every NONEMPTY input string, tokenizing for the
name field equals splitting at every position immediately preceding an
uppercase letter, lowercasing each piece and dropping empty pieces; and
`tokenize "HTTPServer"` is `["h","t","t","p","server"]`.  (On the empty
string the code keeps the single empty piece.) -/
theorem tokenize_name_field (raw : String) (h : raw ≠ "") :
    tokenize raw = tokenizeSpec raw ∧
    tokenize "HTTPServer" = ["h", "t", "t", "p", "server"] :=
  ⟨tokenize_eq_spec_of_ne_empty raw h, by decide⟩

/-- Witness for C2 at the concrete input `"HTTPServer"`. -/
theorem tokenize_name_field_witness :
    tokenize "HTTPServer" = tokenizeSpec "HTTPServer" ∧
    tokenize "HTTPServer" = ["h", "t", "t", "p", "server"] :=
  tokenize_name_field "HTTPServer" (by decide)

/-- Claim C3: reconciliation makes each namespace item visible exactly when
its `data-name` is among the matched names (names and order are preserved);
in particular the empty matched set hides every item; and in the sectioned
variant the same per-item rule holds for every item inside a section. -/
theorem reconcile_visibility (matched : List String) (doc : List NamespaceItem)
    (sdoc : List DocNode) :
    ((reconcile matched doc).map (fun it => (it.name, it.visibleB)) =
      doc.map (fun it => (it.name, matched.contains it.name))) ∧
    ((reconcile ([] : List String) doc).all (fun it => it.hiddenB) = true) ∧
    ((reconcileSectioned matched sdoc).all
      (fun n =>
        match n with
        | .sect s => s.items.all (fun it => it.visibleB == matched.contains it.name)
        | .loose _ => true) = true) := by
  refine ⟨?_, ?_, ?_⟩
  · rw [reconcile, List.map_map]
    apply List.map_congr_left
    intro a _
    simp only [Function.comp_apply, reconcileItem_name, reconcileItem_visibleB]
  · apply List.all_eq_true.mpr
    intro it hit
    rcases List.mem_map.mp (by simpa [reconcile] using hit) with ⟨a, -, rfl⟩
    rw [reconcileItem_hiddenB]
    rfl
  · apply List.all_eq_true.mpr
    intro n hn
    rcases List.mem_map.mp (by simpa [reconcileSectioned] using hn) with ⟨m, -, rfl⟩
    cases m with
    | loose it => rfl
    | sect s =>
      show (reconcileSect matched s).items.all
          (fun it => it.visibleB == matched.contains it.name) = true
      rw [reconcileSect_items]
      apply List.all_eq_true.mpr
      intro it hit
      rcases List.mem_map.mp hit with ⟨a, -, rfl⟩
      rw [reconcileItem_visibleB, reconcileItem_name]
      exact beq_self_eq_true _

/-- Claim C4: in the sectioned variant, after reconciliation every section
is hidden exactly when all of its child namespace items are hidden. -/
theorem section_hidden_iff_all_items_hidden (matched : List String)
    (doc : List DocNode) :
    (reconcileSectioned matched doc).all
      (fun n =>
        match n with
        | .sect s => s.hiddenB == s.items.all (fun it => it.hiddenB)
        | .loose _ => true) = true := by
  apply List.all_eq_true.mpr
  intro n hn
  rcases List.mem_map.mp (by simpa [reconcileSectioned] using hn) with ⟨m, -, rfl⟩
  cases m with
  | loose it => rfl
  | sect s =>
    show ((reconcileSect matched s).hiddenB ==
        (reconcileSect matched s).items.all (fun it => it.hiddenB)) = true
    rw [reconcileSect_hidden_iff]
    exact beq_self_eq_true _

/-- Claim C5: reconciliation is idempotent in both variants — running it a
second time with the same matched names leaves the document (and hence the
visible set) unchanged. -/
theorem reconcile_idempotent (matched : List String) (doc : List NamespaceItem)
    (sdoc : List DocNode) :
    reconcile matched (reconcile matched doc) = reconcile matched doc ∧
    reconcileSectioned matched (reconcileSectioned matched sdoc) =
      reconcileSectioned matched sdoc := by
  constructor
  · simp only [reconcile, List.map_map]
    apply List.map_congr_left
    intro a _
    simp only [Function.comp_apply]
    exact reconcileItem_idem matched a
  · simp only [reconcileSectioned, List.map_map]
    apply List.map_congr_left
    intro n _
    simp only [Function.comp_apply]
    cases n with
    | loose it => rfl
    | sect s => exact congrArg DocNode.sect (reconcileSect_idem matched s)

/-- Claim C6 counterexample: starting from the initial state (no results,
selection `-1`), a single ArrowUp sets the selection to
`max(0, -2) = 0`, which exceeds `resultRecords.length - 1 = -1`; the
claimed invariant is not preserved by every operation. -/
theorem selection_invariant_counterexample :
    ¬ selectionInvariant (runEvents initialUIState [UIEvent.arrowUp]) := by
  decide

/-- Claim C6 (amended): after every sequence of input and keyboard events
the UI state satisfies `selectionIndex ≥ -1`; the claimed upper bound
`selectionIndex ≤ resultRecords.length - 1` is NOT an invariant, because
ArrowUp clamps at `0` even when the result list is empty and clearing the
query does not reset the selection. -/
theorem selection_lower_bound (evs : List UIEvent) :
    -1 ≤ (runEvents initialUIState evs).selectionIdx :=
  runEvents_selectionIdx_lb evs initialUIState (by decide)

/-- Claim C7 counterexample: with three result records and selection `-1`,
pressing ArrowUp sets the selection to `0`, not `-1` — the code clamps with
`max(0, idx - 1)`, so ArrowUp does not leave `-1` unchanged. -/
theorem arrow_up_from_minus_one_counterexample :
    (runEvents initialUIState
        [UIEvent.input "f" threeRecords, UIEvent.arrowUp]).selectionIdx = 0 ∧
    (0 : Int) ≠ -1 := by
  refine ⟨?_, by decide⟩
  decide

/-- Claim C7 (amended): with three result records and selection starting at
`-1`, four ArrowDown presses yield selection `2` (clamped at
`resultCount - 1`), and one ArrowUp press from `-1` yields `0` (clamped
below at `0`, not left at `-1`). -/
theorem keyboard_clamping (resultRecords : List SearchRecord)
    (h : resultRecords.length = 3) :
    (runEvents { selectionIdx := -1, results := resultRecords }
        [UIEvent.arrowDown, UIEvent.arrowDown, UIEvent.arrowDown,
          UIEvent.arrowDown]).selectionIdx = 2 ∧
    (runEvents { selectionIdx := -1, results := resultRecords }
        [UIEvent.arrowUp]).selectionIdx = 0 := by
  constructor
  · simp only [runEvents, List.foldl, step, h]
    omega
  · simp only [runEvents, List.foldl, step]
    omega

/-- Witness for C7 at a concrete three-element result list. -/
theorem keyboard_clamping_witness :
    (runEvents { selectionIdx := -1, results := threeRecords }
        [UIEvent.arrowDown, UIEvent.arrowDown, UIEvent.arrowDown,
          UIEvent.arrowDown]).selectionIdx = 2 ∧
    (runEvents { selectionIdx := -1, results := threeRecords }
        [UIEvent.arrowUp]).selectionIdx = 0 :=
  keyboard_clamping threeRecords (by decide)

/-- Claim C8: Enter with selection `-1` performs no navigation; Enter with
a valid selection prevents the default action and navigates to exactly
`/@scope/pkg[@version]/doc{file == "." ? "" : file}/~/name`, where the
version segment appears only when `version` is nonempty. -/
theorem enter_navigation_correct (scope pkg version : String) (s : UIState) :
    (s.selectionIdx = -1 → enterNavigation scope pkg version s = none) ∧
    (∀ item : SearchRecord, -1 < s.selectionIdx →
      s.results.get? s.selectionIdx.toNat = some item →
      enterNavigation scope pkg version s =
        some ("/@" ++ scope ++ "/" ++ pkg ++
          (if version = "" then "" else "@" ++ version) ++
          "/doc" ++ (if item.file = "." then "" else item.file) ++
          "/~/" ++ item.name)) := by
  constructor
  · intro h
    unfold enterNavigation
    rw [h]
    rfl
  · intro item hlt hget
    unfold enterNavigation
    rw [if_pos hlt, hget]
    rfl

/-- Witness for C8: a concrete selected record with a nonempty version and
a non-dot file. -/
theorem enter_navigation_correct_witness :
    enterNavigation "std" "http" "1.0.0"
        { selectionIdx := 0, results := [witnessRecord] } =
      some ("/@" ++ "std" ++ "/" ++ "http" ++
        (if "1.0.0" = "" then "" else "@" ++ "1.0.0") ++
        "/doc" ++ (if witnessRecord.file = "." then "" else witnessRecord.file) ++
        "/~/" ++ witnessRecord.name) :=
  (enter_navigation_correct "std" "http" "1.0.0"
      { selectionIdx := 0, results := [witnessRecord] }).2 witnessRecord
    (by decide) rfl

/-- Claim C9: when the content fetch resolves with `ok: false`, the error
is logged and the mount effect returns before mutating any state: nothing
is inserted, no document snapshot is published, and `db.value` is never
assigned, so the widget never becomes ready. -/
theorem fetch_error_aborts_init (parse : String → List DocNode)
    (content : Option String) (h : contentTruthy content = false) :
    runInit parse content ApiResponse.err =
      { db := none, parsedSearchContent := none, inserted := false,
        loggedError := true } := by
  unfold runInit
  rw [h]
  rfl

/-- Witness for C9: no content prop, failing fetch. -/
theorem fetch_error_aborts_init_witness :
    runInit (fun _ => []) none ApiResponse.err =
      { db := none, parsedSearchContent := none, inserted := false,
        loggedError := true } :=
  fetch_error_aborts_init (fun _ => []) none rfl

/-- Claim C10: the sectioned reconciliation only visits elements with class
`section`, so a namespace item outside every section is left exactly as it
was — same name and same visibility — whether or not its name matched. -/
theorem loose_items_untouched (matched : List String) (doc : List DocNode)
    (i : Nat) (it : NamespaceItem) (h : doc[i]? = some (DocNode.loose it)) :
    (reconcileSectioned matched doc)[i]? = some (DocNode.loose it) := by
  unfold reconcileSectioned
  rw [List.getElem?_map, h]
  rfl

/-- Witness for C10: a visible unmatched loose item stays visible in place. -/
theorem loose_items_untouched_witness :
    (reconcileSectioned ["Foo"] [DocNode.loose looseItem])[0]? =
      some (DocNode.loose looseItem) :=
  loose_items_untouched ["Foo"] [DocNode.loose looseItem] 0 looseItem rfl

end LocalSymbolSearch
